import Mathlib

/-!
Verification of the `icecreamswaputils` package: the versioned transactional
dictionary (`versioned_dict.py`) and the replicated hash mirror of
`redis_connector.py`.

Python values are embedded as a two-level universe `PyVal`: atoms (ints and
strings), and one level of containers (tuples, lists, dicts of atoms or
one-level containers).  This sub-universe is closed under every operation the
code performs and suffices for all properties considered here.  Equality on
`PyVal` models Python `==` (structural on this universe; dict values are kept
in insertion order).  Python dicts are embedded as association lists in
insertion order with the usual dict semantics: assignment replaces in place or
appends, deletion removes the entry, lookup scans for the key.
-/

/-- Non-container Python values. -/
inductive PyAtom where
  | int (n : Int)
  | str (s : String)
deriving DecidableEq, Repr

/-- Values that may appear inside a container (one nesting level). -/
inductive PyElem where
  | atom (a : PyAtom)
  | tupE (l : List PyAtom)
  | listE (l : List PyAtom)
deriving DecidableEq, Repr

/-- The embedded Python value universe. -/
inductive PyVal where
  | atom (a : PyAtom)
  | tup (l : List PyElem)
  | list (l : List PyElem)
  | dict (l : List (String × PyElem))
deriving DecidableEq, Repr

/-- Shorthand for integer values. -/
def PyVal.int (n : Int) : PyVal := PyVal.atom (PyAtom.int n)

/-- Shorthand for string values. -/
def PyVal.str (s : String) : PyVal := PyVal.atom (PyAtom.str s)

/-- Python exceptions raised by the modelled code. -/
inductive PyErr where
  | valueError (msg : String)
  | keyError
  | typeError
deriving DecidableEq, Repr

/-! ### Python dict primitives (association lists in insertion order) -/

/-- `d[k]` lookup returning `none` when absent (`dict.get`). -/
def dGet? {α : Type} : List (String × α) → String → Option α
  | [], _ => none
  | (k0, v0) :: rest, k => if k0 = k then some v0 else dGet? rest k

/-- `k in d`. -/
def dContains {α : Type} (d : List (String × α)) (k : String) : Bool :=
  (dGet? d k).isSome

/-- `d[k] = v`: replace in place if present, else append. -/
def dInsert {α : Type} : List (String × α) → String → α → List (String × α)
  | [], k, v => [(k, v)]
  | (k0, v0) :: rest, k, v =>
    if k0 = k then (k, v) :: rest else (k0, v0) :: dInsert rest k v

/-- `del d[k]` for a present key: drop the first entry with key `k`. -/
def dErase {α : Type} : List (String × α) → String → List (String × α)
  | [], _ => []
  | (k0, v0) :: rest, k => if k0 = k then rest else (k0, v0) :: dErase rest k

/-- `list(d.keys())`. -/
def dKeys {α : Type} (d : List (String × α)) : List String :=
  d.map Prod.fst

/-- `d |= other` (`dict.update`): insert every entry of `other` in order. -/
def dUpdate {α : Type} (d other : List (String × α)) : List (String × α) :=
  other.foldl (fun acc kv => dInsert acc kv.1 kv.2) d

deriving instance DecidableEq for Except

/-! ### Versioned Store (`VersionedDict`) -/

/-- A diff entry: `none` stands for the `KEY_CREATED` sentinel (checked by
identity in the source, which no ordinary value can be), `some v` records the
prior value `v`. -/
abbrev ChangeEntry := Option PyVal

/-- The open or committed diff: key to sentinel-or-prior-value. -/
abbrev Changes := List (String × ChangeEntry)

/-- State of a `VersionedDict`: the backing dict, the bounded history of
committed diffs (a `deque` with optional `maxlen`), the open diff and the
configured bound. -/
structure VersionedDict where
  data : List (String × PyVal)
  history : List Changes
  changes : Changes
  maxlen : Option Nat
deriving DecidableEq, Repr

/-- `VersionedDict(max_history=ml)` with no initial items. -/
def initVD (ml : Option Nat) : VersionedDict :=
  { data := [], history := [], changes := [], maxlen := ml }

/-- `deque.append` honouring `maxlen`: when full, the oldest (leftmost)
element is evicted; with `maxlen=0` the element is discarded immediately. -/
def dequeAppend {α : Type} (ml : Option Nat) (h : List α) (c : α) : List α :=
  match ml with
  | none => h ++ [c]
  | some m => (h ++ [c]).drop ((h ++ [c]).length - m)

/-- `isinstance(value, dict)`. -/
def isinstanceDict : PyVal → Bool
  | .dict _ => true
  | _ => false

/-- `isinstance(value, Hashable)`: a type-level check.  Tuples always pass it
(their `__hash__` slot exists) even when they contain mutable elements;
lists and dicts fail it. -/
def isinstanceHashable : PyVal → Bool
  | .list _ => false
  | .dict _ => false
  | _ => true

/-- Whether a container element is mutable. -/
def specMutableElem : PyElem → Bool
  | .atom _ => false
  | .tupE _ => false
  | .listE _ => true

/-- Modelled from the spec's words for comparison with the source's check: a
value is "mutable (non-hashable)" when it is a list or a dict, or a tuple
containing a mutable element (calling `hash()` on it would fail). -/
def specMutableValue : PyVal → Bool
  | .atom _ => false
  | .list _ => true
  | .dict _ => true
  | .tup l => l.any specMutableElem

/-- `VersionedDict.__setitem__`.  Returns the raised exception (if any) and
the state afterwards; the value-kind check precedes every mutation. -/
def VersionedDict.setitem (s : VersionedDict) (k : String) (v : PyVal) :
    Option PyErr × VersionedDict :=
  if isinstanceDict v = false ∧ isinstanceHashable v = false then
    (some (PyErr.valueError "mutable value not allowed in VersionedDict"), s)
  else
    let changes :=
      if dContains s.changes k then s.changes
      else
        match dGet? s.data k with
        | none => dInsert s.changes k none
        | some old => if old = v then s.changes else dInsert s.changes k (some old)
    (none, { s with changes := changes, data := dInsert s.data k v })

/-- `VersionedDict.__delitem__`.  Mirrors the source order of effects: when
the key has no diff entry, reading `self.data[key]` may raise `KeyError`
before anything is mutated; when the pending entry is the creation sentinel it
is discarded before `super().__delitem__` runs (which itself can raise). -/
def VersionedDict.delitem (s : VersionedDict) (k : String) :
    Option PyErr × VersionedDict :=
  if dContains s.changes k = false then
    match dGet? s.data k with
    | none => (some PyErr.keyError, s)
    | some v =>
      (none, { s with changes := dInsert s.changes k (some v), data := dErase s.data k })
  else
    let changes :=
      if dGet? s.changes k = some none then dErase s.changes k else s.changes
    if dContains s.data k then
      (none, { s with changes := changes, data := dErase s.data k })
    else
      (some PyErr.keyError, { s with changes := changes })

/-- `VersionedDict.commit`. -/
def VersionedDict.commit (s : VersionedDict) : VersionedDict :=
  { s with history := dequeAppend s.maxlen s.history s.changes, changes := [] }

/-- The loop body of `VersionedDict._undo_changes`: delete keys recorded as
created (raising `KeyError` if absent, leaving earlier undos applied),
otherwise restore the recorded prior value. -/
def undoLoop : Changes → List (String × PyVal) → Option PyErr × List (String × PyVal)
  | [], d => (none, d)
  | (k, entry) :: rest, d =>
    match entry with
    | none => if dContains d k then undoLoop rest (dErase d k) else (some PyErr.keyError, d)
    | some v => undoLoop rest (dInsert d k v)

/-- `VersionedDict._undo_changes`: run the undo loop; on success return the
keys of the diff in order. -/
def undoChanges (ch : Changes) (d : List (String × PyVal)) :
    Except PyErr (List String) × List (String × PyVal) :=
  match undoLoop ch d with
  | (none, d') => (Except.ok (dKeys ch), d')
  | (some e, d') => (Except.error e, d')

/-- `VersionedDict.rollback`: raise on empty history, otherwise merge the open
diff with the popped most recent historical diff (the historical entry wins on
collision) and undo the merge.  The open diff is cleared and the history
popped before the undo runs, so a `KeyError` from the undo leaves them so. -/
def VersionedDict.rollback (s : VersionedDict) :
    Except PyErr (List String) × VersionedDict :=
  match s.history.getLast? with
  | none => (Except.error (PyErr.valueError "Empty history"), s)
  | some popped =>
    let merged := dUpdate s.changes popped
    let r := undoChanges merged s.data
    (r.1, { s with data := r.2, changes := [], history := s.history.dropLast })

/-- `VersionedDict.revert`: undo only the open diff. -/
def VersionedDict.revert (s : VersionedDict) :
    Except PyErr (List String) × VersionedDict :=
  let r := undoChanges s.changes s.data
  (r.1, { s with data := r.2, changes := [] })

/-- One user-level operation on the store. -/
inductive VOp where
  | setV (k : String) (v : PyVal)
  | delV (k : String)
  | commitV
  | rollbackV
  | revertV
deriving DecidableEq, Repr

/-- Apply one operation, keeping the post-state whether or not it raised
(exceptions leave the object in whatever state the method reached). -/
def applyVOp (s : VersionedDict) : VOp → VersionedDict
  | .setV k v => (VersionedDict.setitem s k v).2
  | .delV k => (VersionedDict.delitem s k).2
  | .commitV => VersionedDict.commit s
  | .rollbackV => (VersionedDict.rollback s).2
  | .revertV => (VersionedDict.revert s).2

/-- Run a list of operations from a fresh store. -/
def runOps (ml : Option Nat) (ops : List VOp) : VersionedDict :=
  ops.foldl applyVOp (initVD ml)

/-- A state is reachable when some operation sequence from a fresh store
produces it. -/
def ReachableVD (s : VersionedDict) : Prop :=
  ∃ ml ops, runOps ml ops = s

/-! ### Snapshot export / import (`to_obj` / `from_obj`) -/

/-- The marker standing in for the `KEY_CREATED` sentinel in the external
snapshot shape. -/
def createdMarker : PyVal := PyVal.str "__CREATED__"

/-- Export one diff value: the sentinel becomes the marker (the source checks
`value is not KEY_CREATED`, an identity test no ordinary value passes). -/
def encodeEntry : ChangeEntry → PyVal
  | none => createdMarker
  | some v => v

/-- Import one diff value: the source checks `value != "__CREATED__"` by
equality, so any value equal to the marker becomes the sentinel. -/
def decodeEntry (v : PyVal) : ChangeEntry :=
  if v = createdMarker then none else some v

/-- Export a diff mapping. -/
def encodeRecord (r : Changes) : List (String × PyVal) :=
  r.map (fun kv => (kv.1, encodeEntry kv.2))

/-- Import a diff mapping. -/
def decodeRecord (r : List (String × PyVal)) : Changes :=
  r.map (fun kv => (kv.1, decodeEntry kv.2))

/-- The external snapshot shape. -/
structure VDObj where
  data : List (String × PyVal)
  history : List (List (String × PyVal))
  changes : List (String × PyVal)
  max_history : Option Nat
deriving DecidableEq, Repr

/-- `VersionedDict.to_obj`. -/
def VersionedDict.to_obj (s : VersionedDict) : VDObj :=
  { data := s.data,
    history := s.history.map encodeRecord,
    changes := encodeRecord s.changes,
    max_history := s.maxlen }

/-- `VersionedDict.from_obj`: build a fresh instance, `update` its data dict
with the snapshot's data, `extend` the bounded history deque, and set the open
diff, decoding the marker back to the sentinel. -/
def VersionedDict.from_obj (o : VDObj) : VersionedDict :=
  let inst := initVD o.max_history
  { inst with
    data := o.data.foldl (fun d kv => dInsert d kv.1 kv.2) inst.data,
    history := (o.history.map decodeRecord).foldl (dequeAppend o.max_history) inst.history,
    changes := decodeRecord o.changes }

/-- No diff value recorded anywhere equals the marker string (the collision
the import-side equality test cannot distinguish from the sentinel). -/
def markerFree (s : VersionedDict) : Bool :=
  s.history.all (fun r => r.all (fun kv => decide (kv.2 ≠ some createdMarker)))
    && s.changes.all (fun kv => decide (kv.2 ≠ some createdMarker))

/-! ### Replicated hash mirror (`RedisConnector`) -/

/-- State of one mirror's worker (`_subscribe_hash_thread` locals together
with `hash_data[redis_key]`): the local field map, whether the initial
snapshot was delivered to the observer, and the buffer of field names that
changed while frozen. -/
structure MirrorState where
  data : List (String × PyVal)
  updatedInitial : Bool
  frozenUpdates : List String
deriving DecidableEq, Repr

/-- An observer invocation (`_on_new_data`): the whole field map and the
changed field names passed alongside it. -/
structure MirrorEv where
  fields : List (String × PyVal)
  changed : List String
deriving DecidableEq, Repr

/-- `list(set(l))`: deduplicate, modelled as first-occurrence order (the
claims only ever compare these as sets). -/
def dedup (l : List String) : List String :=
  l.foldl (fun acc k => if k ∈ acc then acc else acc ++ [k]) []

/-- One iteration of the worker loop of `_subscribe_hash_thread`.  Inputs per
iteration: the frozen flag as cached at the top of the body, the payloads of
the messages drained this cycle, and the remote hash contents `hmget` would
see.  Produces the next state and the observer invocations of the cycle. -/
def mirrorStep (frozen : Bool) (msgs : List (List String))
    (remote : List (String × PyVal)) (st : MirrorState) :
    MirrorState × List MirrorEv :=
  let changed0 := if msgs = [] then [] else dedup msgs.flatten
  let changed1 :=
    if frozen = false ∧ st.frozenUpdates ≠ [] then dedup (st.frozenUpdates ++ changed0)
    else changed0
  let fu1 := if frozen = false ∧ st.frozenUpdates ≠ [] then [] else st.frozenUpdates
  let ui1 := if st.updatedInitial = false ∧ frozen = false then true else st.updatedInitial
  let evs0 : List MirrorEv :=
    if st.updatedInitial = false ∧ frozen = false then [⟨st.data, dKeys st.data⟩] else []
  if changed1 = [] then
    ({ st with frozenUpdates := fu1, updatedInitial := ui1 }, evs0)
  else if frozen then
    ({ st with frozenUpdates := dedup (fu1 ++ changed1), updatedInitial := ui1 }, evs0)
  else
    let data' := changed1.foldl
      (fun d k => match dGet? remote k with
        | none => dErase d k
        | some v => dInsert d k v) st.data
    ({ data := data', updatedInitial := ui1, frozenUpdates := fu1 },
      evs0 ++ [⟨data', changed1⟩])

/-- Run the worker over a list of per-iteration inputs, collecting events. -/
def runMirror (st : MirrorState) :
    List (Bool × List (List String) × List (String × PyVal)) → MirrorState × List MirrorEv
  | [] => (st, [])
  | (fr, msgs, rem) :: rest =>
    let p := mirrorStep fr msgs rem st
    let q := runMirror p.1 rest
    (q.1, p.2 ++ q.2)

/-- A frozen interval: each iteration runs with the frozen flag set, draining
some message batches (the remote store is never consulted while frozen). -/
def frozenPhase (msgss : List (List (List String))) :
    List (Bool × List (List String) × List (String × PyVal)) :=
  msgss.map (fun m => (true, m, []))

/-- The hash branches of `RedisConnector.__setitem__`, single-field form:
`hset` the field, then publish its name. -/
def hashWriteField (remote : List (String × PyVal)) (f : String) (v : PyVal) :
    List (String × PyVal) × List String :=
  (dInsert remote f v, [f])

/-- Full-hash replace (`redis_key[key, :] = data`): delete the hash, recreate
it from the mapping when nonempty, and publish the mapping's keys. -/
def hashWriteAll (remote mapping : List (String × PyVal)) :
    List (String × PyVal) × List String :=
  (mapping, dKeys mapping)

/-- Batch form (`redis_key[key, fields] = values`, here pre-zipped): `hset`
the non-null entries, `hdel` the null ones, publish every named field. -/
def hashWriteBatch (remote : List (String × PyVal))
    (kvs : List (String × Option PyVal)) : List (String × PyVal) × List String :=
  let updates := kvs.filterMap (fun kv => kv.2.map (fun v => (kv.1, v)))
  let deletes := (kvs.filter (fun kv => kv.2 = none)).map Prod.fst
  (deletes.foldl dErase (updates.foldl (fun d kv => dInsert d kv.1 kv.2) remote),
    dKeys kvs)

/-- Primitive effects of `subscribe_hash`, in execution order. -/
inductive RAction where
  | pubsubSub (channel : String)
  | hgetallRead (key : String)
  | threadStart (name : String)
deriving DecidableEq, Repr

/-- The connector state touched by `subscribe_hash`. -/
structure RCState where
  hash_frozen : List (String × Bool)
  hash_data : List (String × List (String × PyVal))
deriving DecidableEq, Repr

/-- `RedisConnector.subscribe_hash`: raise when already subscribed (before any
mutation); otherwise record the frozen flag, open the delta subscription,
read the full snapshot (`remote` is the hash contents at `hgetall` time) into
`hash_data`, and start the worker — in that order. -/
def subscribeHash (st : RCState) (key : String) (start_frozen : Bool)
    (remote : List (String × PyVal)) : Option PyErr × RCState × List RAction :=
  if dContains st.hash_frozen key then
    (some (PyErr.valueError ("Already subscribed to redis hash " ++ key)), st, [])
  else
    let st1 := { st with hash_frozen := dInsert st.hash_frozen key start_frozen }
    let st2 := { st1 with hash_data := dInsert st1.hash_data key remote }
    (none, st2,
      [RAction.pubsubSub ("hash_updates:" ++ key),
       RAction.hgetallRead key,
       RAction.threadStart ("redis_hash_subscriber_" ++ key)])

/-- `hget` then `json.loads`: a nil reply reaches `json.loads(None)`, which
raises `TypeError`. -/
def hgetDecode (remote : List (String × PyVal)) (f : String) : Except PyErr PyVal :=
  match dGet? remote f with
  | some v => Except.ok v
  | none => Except.error PyErr.typeError

/-- Single-field branch of `RedisConnector.__getitem__` for hashes: serve
`hash_data[key][hkey]` when the key is cached (`KeyError` when the field is
absent), otherwise fall back to a remote `hget`.  Also reports whether the
subscribed-but-not-loaded diagnostic was printed. -/
def hashGetField (hash_data : List (String × List (String × PyVal)))
    (hash_frozen : List (String × Bool)) (remote : List (String × PyVal))
    (key f : String) : Except PyErr PyVal × Bool :=
  let diag := dContains hash_frozen key ∧ dContains hash_data key = false
  match dGet? hash_data key with
  | some cache =>
    (match dGet? cache f with
     | some v => Except.ok v
     | none => Except.error PyErr.keyError, decide diag)
  | none => (hgetDecode remote f, decide diag)

/-- Full-snapshot branch (`redis_key[key, :]`): the cached map when present,
else a remote `hgetall`. -/
def hashGetAll (hash_data : List (String × List (String × PyVal)))
    (hash_frozen : List (String × Bool)) (remote : List (String × PyVal))
    (key : String) : List (String × PyVal) × Bool :=
  let diag := dContains hash_frozen key ∧ dContains hash_data key = false
  match dGet? hash_data key with
  | some cache => (cache, decide diag)
  | none => (remote, decide diag)

/-- Field-list branch: from the cache, `data.get` per field (null when
absent, no fallback and no error); otherwise a remote `hmget` (null entries
stay null). -/
def hashGetList (hash_data : List (String × List (String × PyVal)))
    (hash_frozen : List (String × Bool)) (remote : List (String × PyVal))
    (key : String) (fs : List String) : List (String × Option PyVal) × Bool :=
  let diag := dContains hash_frozen key ∧ dContains hash_data key = false
  match dGet? hash_data key with
  | some cache => (fs.map (fun f => (f, dGet? cache f)), decide diag)
  | none => (fs.map (fun f => (f, dGet? remote f)), decide diag)

/-! ### Lemmas about the dict primitives -/

theorem dKeys_nil {α : Type} : dKeys ([] : List (String × α)) = [] := rfl

theorem dKeys_cons {α : Type} (k0 : String) (v0 : α) (tl : List (String × α)) :
    dKeys ((k0, v0) :: tl) = k0 :: dKeys tl := rfl

theorem dGet?_cons {α : Type} (k0 : String) (v0 : α) (tl : List (String × α)) (k : String) :
    dGet? ((k0, v0) :: tl) k = if k0 = k then some v0 else dGet? tl k := rfl

theorem dInsert_cons {α : Type} (k0 : String) (v0 : α) (tl : List (String × α))
    (k : String) (v : α) :
    dInsert ((k0, v0) :: tl) k v =
      if k0 = k then (k, v) :: tl else (k0, v0) :: dInsert tl k v := rfl

theorem dErase_cons {α : Type} (k0 : String) (v0 : α) (tl : List (String × α)) (k : String) :
    dErase ((k0, v0) :: tl) k = if k0 = k then tl else (k0, v0) :: dErase tl k := rfl

theorem dGet?_insert_self {α : Type} (d : List (String × α)) (k : String) (v : α) :
    dGet? (dInsert d k v) k = some v := by
  induction d with
  | nil => simp [dInsert, dGet?]
  | cons hd tl ih =>
    obtain ⟨k0, v0⟩ := hd
    by_cases h : k0 = k
    · rw [dInsert_cons, if_pos h, dGet?_cons, if_pos rfl]
    · rw [dInsert_cons, if_neg h, dGet?_cons, if_neg h, ih]

theorem dGet?_insert_ne {α : Type} (d : List (String × α)) (k k' : String) (v : α)
    (hne : k' ≠ k) : dGet? (dInsert d k v) k' = dGet? d k' := by
  have hkk : ¬ k = k' := fun h => hne h.symm
  induction d with
  | nil => simp [dInsert, dGet?, hkk]
  | cons hd tl ih =>
    obtain ⟨k0, v0⟩ := hd
    by_cases h : k0 = k
    · subst h
      rw [dInsert_cons, if_pos rfl, dGet?_cons, if_neg hkk, dGet?_cons, if_neg hkk]
    · rw [dInsert_cons, if_neg h, dGet?_cons, dGet?_cons, ih]

theorem dInsert_self {α : Type} (d : List (String × α)) (k : String) (v : α)
    (h : dGet? d k = some v) : dInsert d k v = d := by
  induction d with
  | nil => simp [dGet?] at h
  | cons hd tl ih =>
    obtain ⟨k0, v0⟩ := hd
    by_cases hk : k0 = k
    · rw [dGet?_cons, if_pos hk] at h
      rw [dInsert_cons, if_pos hk, hk, Option.some_inj.mp h]
    · rw [dGet?_cons, if_neg hk] at h
      rw [dInsert_cons, if_neg hk, ih h]

theorem mem_dKeys_iff_isSome {α : Type} (d : List (String × α)) (k : String) :
    k ∈ dKeys d ↔ (dGet? d k).isSome = true := by
  induction d with
  | nil => simp [dGet?, dKeys]
  | cons hd tl ih =>
    obtain ⟨k0, v0⟩ := hd
    rw [dKeys_cons, List.mem_cons, dGet?_cons]
    by_cases h : k0 = k
    · subst h
      simp
    · have hsym : ¬ k = k0 := fun hh => h hh.symm
      rw [if_neg h]
      simp [hsym, ih]

theorem dContains_iff_mem_keys {α : Type} (d : List (String × α)) (k : String) :
    dContains d k = true ↔ k ∈ dKeys d := by
  rw [dContains, mem_dKeys_iff_isSome]

theorem dGet?_eq_none_iff {α : Type} (d : List (String × α)) (k : String) :
    dGet? d k = none ↔ k ∉ dKeys d := by
  rw [mem_dKeys_iff_isSome, ← Option.not_isSome_iff_eq_none]

theorem mem_keys_dInsert {α : Type} (d : List (String × α)) (k a : String) (v : α) :
    a ∈ dKeys (dInsert d k v) ↔ a ∈ dKeys d ∨ a = k := by
  induction d with
  | nil => simp [dInsert, dKeys]
  | cons hd tl ih =>
    obtain ⟨k0, v0⟩ := hd
    by_cases h : k0 = k
    · subst h
      rw [dInsert_cons, if_pos rfl, dKeys_cons, dKeys_cons]
      simp only [List.mem_cons]
      tauto
    · rw [dInsert_cons, if_neg h, dKeys_cons, dKeys_cons]
      simp only [List.mem_cons, ih]
      tauto

theorem dInsert_of_not_mem {α : Type} (k : String) (v : α) :
    ∀ d : List (String × α), k ∉ dKeys d → dInsert d k v = d ++ [(k, v)] := by
  intro d
  induction d with
  | nil => intro _; rfl
  | cons hd tl ih =>
    intro h
    obtain ⟨k0, v0⟩ := hd
    rw [dKeys_cons, List.mem_cons] at h
    push_neg at h
    rw [dInsert_cons, if_neg (fun hh => h.1 hh.symm), ih h.2, List.cons_append]

/-- Keys of a dict are pairwise distinct. -/
def NodupK {α : Type} (d : List (String × α)) : Prop :=
  (dKeys d).Nodup

theorem NodupK_dInsert {α : Type} (k : String) (v : α) :
    ∀ d : List (String × α), NodupK d → NodupK (dInsert d k v) := by
  intro d
  induction d with
  | nil =>
    intro _
    simp [dInsert, NodupK, dKeys]
  | cons hd tl ih =>
    intro h
    obtain ⟨k0, v0⟩ := hd
    rw [NodupK, dKeys_cons, List.nodup_cons] at h
    by_cases hk : k0 = k
    · subst hk
      rw [dInsert_cons, if_pos rfl, NodupK, dKeys_cons, List.nodup_cons]
      exact h
    · rw [dInsert_cons, if_neg hk, NodupK, dKeys_cons, List.nodup_cons]
      refine ⟨fun hmem => ?_, ih h.2⟩
      rcases (mem_keys_dInsert tl k k0 v).mp hmem with h1 | h2
      · exact h.1 h1
      · exact hk h2

theorem dErase_sublist {α : Type} (d : List (String × α)) (k : String) :
    (dErase d k).Sublist d := by
  induction d with
  | nil => simp [dErase]
  | cons hd tl ih =>
    obtain ⟨k0, v0⟩ := hd
    by_cases h : k0 = k
    · rw [dErase_cons, if_pos h]
      exact List.sublist_cons_self _ _
    · rw [dErase_cons, if_neg h]
      exact ih.cons₂ _

theorem NodupK_dErase {α : Type} {d : List (String × α)} (k : String)
    (h : NodupK d) : NodupK (dErase d k) :=
  h.sublist ((dErase_sublist d k).map Prod.fst)

/-! ### Lemmas about `dedup`, `dequeAppend` and the snapshot helpers -/

theorem mem_dedup_foldl (l : List String) :
    ∀ (acc : List String) (a : String),
      a ∈ l.foldl (fun acc k => if k ∈ acc then acc else acc ++ [k]) acc ↔
        a ∈ acc ∨ a ∈ l := by
  induction l with
  | nil => intro acc a; simp
  | cons x xs ih =>
    intro acc a
    rw [List.foldl_cons]
    by_cases hx : x ∈ acc
    · rw [if_pos hx, ih]
      simp only [List.mem_cons]
      constructor
      · rintro (h | h)
        · exact Or.inl h
        · exact Or.inr (Or.inr h)
      · rintro (h | rfl | h)
        · exact Or.inl h
        · exact Or.inl hx
        · exact Or.inr h
    · rw [if_neg hx, ih]
      simp only [List.mem_append, List.mem_singleton, List.mem_cons]
      tauto

theorem mem_dedup (l : List String) (a : String) : a ∈ dedup l ↔ a ∈ l := by
  rw [dedup, mem_dedup_foldl]
  simp

theorem dedup_eq_nil_iff (l : List String) : dedup l = [] ↔ l = [] := by
  constructor
  · intro h
    by_contra hne
    obtain ⟨a, ha⟩ := List.exists_mem_of_ne_nil l hne
    have := (mem_dedup l a).mpr ha
    simp [h] at this
  · rintro rfl
    rfl

theorem dequeAppend_length_le {α : Type} (m : Nat) (h : List α) (c : α) :
    (dequeAppend (some m) h c).length ≤ m := by
  simp [dequeAppend]
  omega

theorem dequeAppend_getLast? {α : Type} (ml : Option Nat) (h : List α) (c : α)
    (hml : ml ≠ some 0) : (dequeAppend ml h c).getLast? = some c := by
  cases ml with
  | none => exact List.getLast?_concat h
  | some m =>
    have hm : 1 ≤ m := by
      rcases Nat.eq_zero_or_pos m with h0 | h1
      · exact absurd (by rw [h0]) hml
      · exact h1
    have hle : (h ++ [c]).length - m ≤ h.length := by
      simp
      omega
    rw [dequeAppend, List.drop_append_of_le_length hle, List.getLast?_concat]

theorem dequeAppend_mem {α : Type} (ml : Option Nat) (h : List α) (c : α) :
    ∀ x ∈ dequeAppend ml h c, x ∈ h ∨ x = c := by
  intro x hx
  have hx2 : x ∈ h ++ [c] := by
    cases ml with
    | none => exact hx
    | some m => exact List.drop_subset _ _ hx
  rcases List.mem_append.mp hx2 with h1 | h2
  · exact Or.inl h1
  · exact Or.inr (List.mem_singleton.mp h2)

theorem foldl_dequeAppend_eq {α : Type} (ml : Option Nat) :
    ∀ (l acc : List α), (∀ m, ml = some m → acc.length + l.length ≤ m) →
      l.foldl (dequeAppend ml) acc = acc ++ l := by
  intro l
  induction l with
  | nil => intro acc _; simp
  | cons c tl ih =>
    intro acc hlen
    rw [List.foldl_cons]
    have h1 : dequeAppend ml acc c = acc ++ [c] := by
      cases ml with
      | none => rfl
      | some m =>
        have h2 := hlen m rfl
        simp only [List.length_cons] at h2
        rw [dequeAppend]
        rw [Nat.sub_eq_zero_of_le (by simp only [List.length_append, List.length_singleton]; omega)]
        exact List.drop_zero _
    rw [h1, ih (acc ++ [c]) (fun m hm => by
      have h3 := hlen m hm
      simp only [List.length_cons] at h3
      simp only [List.length_append, List.length_singleton]
      omega)]
    simp

theorem dKeys_append {α : Type} (a b : List (String × α)) :
    dKeys (a ++ b) = dKeys a ++ dKeys b := List.map_append _ _ _

theorem foldl_dInsert_eq {α : Type} :
    ∀ (l acc : List (String × α)), (∀ k ∈ dKeys l, k ∉ dKeys acc) → NodupK l →
      l.foldl (fun d kv => dInsert d kv.1 kv.2) acc = acc ++ l := by
  intro l
  induction l with
  | nil => intro acc _ _; simp
  | cons kv tl ih =>
    intro acc hdisj hnd
    obtain ⟨k, v⟩ := kv
    rw [NodupK, dKeys_cons, List.nodup_cons] at hnd
    rw [List.foldl_cons]
    have h1 : dInsert acc k v = acc ++ [(k, v)] :=
      dInsert_of_not_mem k v acc (hdisj k (by rw [dKeys_cons]; exact List.mem_cons_self _ _))
    rw [h1, ih (acc ++ [(k, v)]) ?hdisj hnd.2, List.append_assoc, List.singleton_append]
    case hdisj =>
      intro k' hk'
      rw [dKeys_append]
      simp only [List.mem_append]
      rintro (h2 | h2)
      · exact hdisj k' (by rw [dKeys_cons]; exact List.mem_cons_of_mem _ hk') h2
      · have : k' = k := by simpa [dKeys] using h2
        exact hnd.1 (this ▸ hk')

theorem decodeEntry_encodeEntry (e : ChangeEntry) (h : e ≠ some createdMarker) :
    decodeEntry (encodeEntry e) = e := by
  cases e with
  | none => simp [encodeEntry, decodeEntry]
  | some v =>
    have : v ≠ createdMarker := fun hv => h (by rw [hv])
    simp [encodeEntry, decodeEntry, this]

theorem decodeRecord_encodeRecord (r : Changes)
    (h : ∀ kv ∈ r, kv.2 ≠ some createdMarker) :
    decodeRecord (encodeRecord r) = r := by
  induction r with
  | nil => rfl
  | cons kv tl ih =>
    obtain ⟨k, e⟩ := kv
    rw [encodeRecord, List.map_cons, decodeRecord, List.map_cons]
    rw [decodeRecord, encodeRecord] at ih
    rw [ih (fun kv hkv => h kv (List.mem_cons_of_mem _ hkv))]
    rw [decodeEntry_encodeEntry e (h (k, e) (List.mem_cons_self _ _))]

/-! ### Invariants of reachable Versioned Store states -/

/-- Structural invariants every reachable store satisfies: the history never
exceeds the configured bound, and every dict has pairwise-distinct keys. -/
structure VDInv (s : VersionedDict) : Prop where
  hist_len : ∀ m, s.maxlen = some m → s.history.length ≤ m
  data_nodup : NodupK s.data
  changes_nodup : NodupK s.changes
  hist_nodup : ∀ r ∈ s.history, NodupK r

theorem vdInv_init (ml : Option Nat) : VDInv (initVD ml) := by
  refine ⟨fun m _ => ?_, ?_, ?_, ?_⟩ <;> simp [initVD, NodupK, dKeys]

theorem setitem_snd_cases (s : VersionedDict) (k : String) (v : PyVal) :
    (VersionedDict.setitem s k v).2 = s ∨
    ∃ ch, (ch = s.changes ∨ ch = dInsert s.changes k none ∨
            ∃ old, ch = dInsert s.changes k (some old)) ∧
      (VersionedDict.setitem s k v).2 =
        { s with changes := ch, data := dInsert s.data k v } := by
  unfold VersionedDict.setitem
  split
  · exact Or.inl rfl
  · refine Or.inr ?_
    dsimp only
    split
    · exact ⟨s.changes, Or.inl rfl, rfl⟩
    · split
      · exact ⟨_, Or.inr (Or.inl rfl), rfl⟩
      · split
        · exact ⟨s.changes, Or.inl rfl, rfl⟩
        · exact ⟨_, Or.inr (Or.inr ⟨_, rfl⟩), rfl⟩

theorem vdInv_setitem (s : VersionedDict) (k : String) (v : PyVal) (h : VDInv s) :
    VDInv (VersionedDict.setitem s k v).2 := by
  rcases setitem_snd_cases s k v with heq | ⟨ch, hch, heq⟩
  · rw [heq]; exact h
  · rw [heq]
    refine ⟨h.hist_len, NodupK_dInsert _ _ _ h.data_nodup, ?_, h.hist_nodup⟩
    rcases hch with rfl | rfl | ⟨old, rfl⟩
    · exact h.changes_nodup
    · exact NodupK_dInsert _ _ _ h.changes_nodup
    · exact NodupK_dInsert _ _ _ h.changes_nodup

theorem vdInv_delitem (s : VersionedDict) (k : String) (h : VDInv s) :
    VDInv (VersionedDict.delitem s k).2 := by
  unfold VersionedDict.delitem
  by_cases h1 : dContains s.changes k = false
  · rw [if_pos h1]
    cases h2 : dGet? s.data k with
    | none => exact h
    | some v =>
      exact ⟨h.hist_len, NodupK_dErase _ h.data_nodup,
        NodupK_dInsert _ _ _ h.changes_nodup, h.hist_nodup⟩
  · rw [if_neg h1]
    have hch : NodupK (if dGet? s.changes k = some none then dErase s.changes k else s.changes) := by
      split
      · exact NodupK_dErase _ h.changes_nodup
      · exact h.changes_nodup
    dsimp only
    split
    · exact ⟨h.hist_len, NodupK_dErase _ h.data_nodup, hch, h.hist_nodup⟩
    · exact ⟨h.hist_len, h.data_nodup, hch, h.hist_nodup⟩

theorem vdInv_commit (s : VersionedDict) (h : VDInv s) : VDInv (VersionedDict.commit s) := by
  refine ⟨?_, h.data_nodup, ?_, ?_⟩
  · intro m hm
    show (dequeAppend s.maxlen s.history s.changes).length ≤ m
    have hmx : s.maxlen = some m := hm
    rw [hmx]
    exact dequeAppend_length_le m s.history s.changes
  · show NodupK []
    simp [NodupK, dKeys]
  · intro r hr
    rcases dequeAppend_mem s.maxlen s.history s.changes r hr with h1 | rfl
    · exact h.hist_nodup r h1
    · exact h.changes_nodup

theorem undoLoop_snd_nodup (ch : Changes) :
    ∀ d, NodupK d → NodupK (undoLoop ch d).2 := by
  induction ch with
  | nil => intro d h; exact h
  | cons kv tl ih =>
    intro d h
    obtain ⟨k, e⟩ := kv
    cases e with
    | none =>
      rw [undoLoop]
      split
      · exact ih _ (NodupK_dErase _ h)
      · exact h
    | some v => exact ih _ (NodupK_dInsert _ _ _ h)

theorem undoChanges_snd (ch : Changes) (d : List (String × PyVal)) :
    (undoChanges ch d).2 = (undoLoop ch d).2 := by
  unfold undoChanges
  rcases h : undoLoop ch d with ⟨e, d'⟩
  cases e <;> rfl

theorem vdInv_rollback (s : VersionedDict) (h : VDInv s) :
    VDInv (VersionedDict.rollback s).2 := by
  unfold VersionedDict.rollback
  cases hl : s.history.getLast? with
  | none => exact h
  | some popped =>
    dsimp only
    refine ⟨?_, ?_, ?_, ?_⟩
    · intro m hm
      have h1 := h.hist_len m hm
      have h2 : s.history.dropLast.length ≤ s.history.length :=
        (List.dropLast_sublist _).length_le
      show s.history.dropLast.length ≤ m
      omega
    · show NodupK (undoChanges (dUpdate s.changes popped) s.data).2
      rw [undoChanges_snd]
      exact undoLoop_snd_nodup _ _ h.data_nodup
    · show NodupK ([] : Changes)
      simp [NodupK, dKeys]
    · intro r hr
      exact h.hist_nodup r ((List.dropLast_sublist _).subset hr)

theorem vdInv_revert (s : VersionedDict) (h : VDInv s) :
    VDInv (VersionedDict.revert s).2 := by
  unfold VersionedDict.revert
  refine ⟨h.hist_len, ?_, ?_, h.hist_nodup⟩
  · show NodupK (undoChanges s.changes s.data).2
    rw [undoChanges_snd]
    exact undoLoop_snd_nodup _ _ h.data_nodup
  · show NodupK ([] : Changes)
    simp [NodupK, dKeys]

theorem vdInv_applyVOp (s : VersionedDict) (op : VOp) (h : VDInv s) :
    VDInv (applyVOp s op) := by
  cases op with
  | setV k v => exact vdInv_setitem s k v h
  | delV k => exact vdInv_delitem s k h
  | commitV => exact vdInv_commit s h
  | rollbackV => exact vdInv_rollback s h
  | revertV => exact vdInv_revert s h

theorem vdInv_runOps (ml : Option Nat) (ops : List VOp) : VDInv (runOps ml ops) := by
  rw [runOps]
  suffices h : ∀ s, VDInv s → VDInv (ops.foldl applyVOp s) from h _ (vdInv_init ml)
  induction ops with
  | nil => intro s hs; exact hs
  | cons op tl ih => intro s hs; exact ih _ (vdInv_applyVOp s op hs)

theorem reachable_vdInv (s : VersionedDict) (h : ReachableVD s) : VDInv s := by
  obtain ⟨ml, ops, rfl⟩ := h
  exact vdInv_runOps ml ops

theorem map_decode_encode (h : List Changes)
    (hm : ∀ r ∈ h, decodeRecord (encodeRecord r) = r) :
    (h.map encodeRecord).map decodeRecord = h := by
  induction h with
  | nil => rfl
  | cons r tl ih =>
    simp only [List.map_cons]
    rw [hm r (List.mem_cons_self _ _), ih (fun r2 hr2 => hm r2 (List.mem_cons_of_mem _ hr2))]

/-- C4 (amended): for every reachable store in which no recorded prior value
equals the marker string `"__CREATED__"`, exporting and importing reproduces
the store exactly (same data, ordered history, open changes and bound), the
sentinel being translated to the marker and back. -/
theorem C4_roundtrip_marker_free (s : VersionedDict) (hr : ReachableVD s)
    (hm : markerFree s = true) :
    VersionedDict.from_obj (VersionedDict.to_obj s) = s := by
  have inv := reachable_vdInv s hr
  rw [markerFree, Bool.and_eq_true] at hm
  obtain ⟨hmh, hmc⟩ := hm
  rw [List.all_eq_true] at hmh hmc
  have hrec : ∀ r ∈ s.history, decodeRecord (encodeRecord r) = r := by
    intro r hr2
    refine decodeRecord_encodeRecord r (fun kv hkv => ?_)
    have h2 := hmh r hr2
    rw [List.all_eq_true] at h2
    simpa using h2 kv hkv
  have hchg : decodeRecord (encodeRecord s.changes) = s.changes := by
    refine decodeRecord_encodeRecord _ (fun kv hkv => ?_)
    simpa using hmc kv hkv
  have hdata : s.data.foldl (fun d kv => dInsert d kv.1 kv.2) [] = s.data := by
    rw [foldl_dInsert_eq s.data [] (fun k _ => by simp [dKeys]) inv.data_nodup]
    rfl
  have hhist : ((s.history.map encodeRecord).map decodeRecord).foldl
      (dequeAppend s.maxlen) [] = s.history := by
    rw [map_decode_encode s.history hrec]
    rw [foldl_dequeAppend_eq s.maxlen s.history []
      (fun m hm2 => by simpa using inv.hist_len m hm2)]
    rfl
  obtain ⟨data, history, changes, maxlen⟩ := s
  simp only [VersionedDict.to_obj, VersionedDict.from_obj, initVD] at *
  rw [VersionedDict.mk.injEq]
  exact ⟨hdata, hhist, hchg, rfl⟩

/-- C4 counterexample: a reachable store whose open diff records the prior
value `"__CREATED__"` (as an ordinary string) does not survive the round
trip — the import turns that string into the creation sentinel. -/
theorem C4_counterexample :
    ReachableVD (runOps none
      [VOp.setV "k" (PyVal.str "__CREATED__"), VOp.commitV, VOp.setV "k" (PyVal.int 0)]) ∧
    VersionedDict.from_obj (VersionedDict.to_obj (runOps none
      [VOp.setV "k" (PyVal.str "__CREATED__"), VOp.commitV, VOp.setV "k" (PyVal.int 0)])) ≠
      runOps none
        [VOp.setV "k" (PyVal.str "__CREATED__"), VOp.commitV, VOp.setV "k" (PyVal.int 0)] :=
  ⟨⟨none, _, rfl⟩, by decide⟩

/-- C4 witness: the round trip at a concrete reachable, marker-free store. -/
theorem C4_roundtrip_witness :
    VersionedDict.from_obj (VersionedDict.to_obj (runOps (some 2)
      [VOp.setV "a" (PyVal.int 1), VOp.commitV, VOp.setV "a" (PyVal.int 2)])) =
      runOps (some 2) [VOp.setV "a" (PyVal.int 1), VOp.commitV, VOp.setV "a" (PyVal.int 2)] :=
  C4_roundtrip_marker_free _ ⟨some 2, _, rfl⟩ (by decide)

/-- C1: evaluating the code at the failing input.  Starting empty:
`set "a" 1; set "b" 2; commit; del "a"` and then `rollback()`.  The merged
diff maps `"a"` to the creation sentinel, but `"a"` is no longer present, so
the undo's `del self.data[key]` raises `KeyError`; the open diff is already
cleared, the history already popped, and `"b"` is left in place instead of
the pre-commit empty state being restored. -/
theorem C1_rollback_keyerror :
    VersionedDict.rollback (runOps none
      [VOp.setV "a" (PyVal.int 1), VOp.setV "b" (PyVal.int 2), VOp.commitV, VOp.delV "a"]) =
      (Except.error PyErr.keyError,
        { data := [("b", PyVal.int 2)], history := [], changes := [], maxlen := none }) := by
  decide

/-- C2 counterexample: after `set "a" 1; commit; set "a" 2; set "a" 1` the
open diff still records prior value `1` for `"a"` while `data["a"] = 1`: the
claimed invariant fails and no collapse happens on the write-back. -/
theorem C2_counterexample :
    ReachableVD (runOps none [VOp.setV "a" (PyVal.int 1), VOp.commitV,
        VOp.setV "a" (PyVal.int 2), VOp.setV "a" (PyVal.int 1)])
    ∧ dGet? (runOps none [VOp.setV "a" (PyVal.int 1), VOp.commitV,
        VOp.setV "a" (PyVal.int 2), VOp.setV "a" (PyVal.int 1)]).changes "a"
        = some (some (PyVal.int 1))
    ∧ dGet? (runOps none [VOp.setV "a" (PyVal.int 1), VOp.commitV,
        VOp.setV "a" (PyVal.int 2), VOp.setV "a" (PyVal.int 1)]).data "a"
        = some (PyVal.int 1) :=
  ⟨⟨none, _, rfl⟩, by decide, by decide⟩

/-- C2 (amended): a write of a value equal to the current value of a key with
no pending diff entry is a complete no-op — nothing is recorded and the store
is unchanged.  (Once an entry exists, writing the original value back does
not remove it, which is what refutes the claimed invariant.) -/
theorem C2_noop_write_records_nothing (s : VersionedDict) (k : String) (v : PyVal)
    (hkind : isinstanceDict v = true ∨ isinstanceHashable v = true)
    (h1 : dGet? s.changes k = none) (h2 : dGet? s.data k = some v) :
    VersionedDict.setitem s k v = (none, s) := by
  have hnm : ¬ (isinstanceDict v = false ∧ isinstanceHashable v = false) := by
    rcases hkind with h | h <;> simp [h]
  have hcont : dContains s.changes k = false := by simp [dContains, h1]
  unfold VersionedDict.setitem
  rw [if_neg hnm]
  dsimp only
  rw [hcont]
  simp only [Bool.false_eq_true, if_false, h2, if_pos rfl, if_true]
  rw [dInsert_self s.data k v h2]

/-- C2 witness: the no-op write at a concrete store. -/
theorem C2_noop_write_witness :
    VersionedDict.setitem (runOps none [VOp.setV "a" (PyVal.int 1), VOp.commitV])
        "a" (PyVal.int 1)
      = (none, runOps none [VOp.setV "a" (PyVal.int 1), VOp.commitV]) :=
  C2_noop_write_records_nothing _ _ _ (Or.inr (by decide)) (by decide) (by decide)

theorem undoLoop_fst_cases (ch : Changes) :
    ∀ d, (undoLoop ch d).1 = none ∨ (undoLoop ch d).1 = some PyErr.keyError := by
  induction ch with
  | nil => intro d; exact Or.inl rfl
  | cons kv tl ih =>
    intro d
    obtain ⟨k, e⟩ := kv
    cases e with
    | none =>
      rw [undoLoop]
      split
      · exact ih _
      · exact Or.inr rfl
    | some v => exact ih _

theorem undoChanges_fst_cases (ch : Changes) (d : List (String × PyVal)) :
    (undoChanges ch d).1 = Except.ok (dKeys ch)
      ∨ (undoChanges ch d).1 = Except.error PyErr.keyError := by
  unfold undoChanges
  rcases h : undoLoop ch d with ⟨e, d'⟩
  rcases undoLoop_fst_cases ch d with h2 | h2 <;> rw [h] at h2 <;> subst h2
  · exact Or.inl rfl
  · exact Or.inr rfl

/-- C3 counterexample: with empty history but a nonempty open diff there is
something to undo, yet `rollback()` raises — the raise condition is history
emptiness alone, not absence of anything to undo. -/
theorem C3_counterexample :
    (VersionedDict.rollback (runOps none [VOp.setV "a" (PyVal.int 1)])).1
        = Except.error (PyErr.valueError "Empty history")
      ∧ (runOps none [VOp.setV "a" (PyVal.int 1)]).changes ≠ [] :=
  ⟨by decide, by decide⟩

/-- C3 (amended): `rollback()` raises the empty-history error precisely when
`history` is empty — even when an open uncommitted diff exists — and when it
raises, the store is left completely unchanged. -/
theorem C3_raises_iff_history_empty (s : VersionedDict) :
    ((VersionedDict.rollback s).1 = Except.error (PyErr.valueError "Empty history")
        ↔ s.history = [])
      ∧ (s.history = [] → VersionedDict.rollback s
          = (Except.error (PyErr.valueError "Empty history"), s)) := by
  by_cases hh : s.history = []
  · have hgl : s.history.getLast? = none := List.getLast?_eq_none_iff.mpr hh
    unfold VersionedDict.rollback
    rw [hgl]
    exact ⟨⟨fun _ => hh, fun _ => rfl⟩, fun _ => rfl⟩
  · obtain ⟨p, hp⟩ : ∃ p, s.history.getLast? = some p := by
      cases hgl : s.history.getLast? with
      | none => exact absurd (List.getLast?_eq_none_iff.mp hgl) hh
      | some p => exact ⟨p, rfl⟩
    refine ⟨⟨fun h => ?_, fun h => absurd h hh⟩, fun h => absurd h hh⟩
    have hfst : (VersionedDict.rollback s).1 = (undoChanges (dUpdate s.changes p) s.data).1 := by
      unfold VersionedDict.rollback
      rw [hp]
    rw [hfst] at h
    rcases undoChanges_fst_cases (dUpdate s.changes p) s.data with h2 | h2 <;>
      rw [h2] at h <;> simp at h

/-- C3 witness: a fresh store raises and is unchanged. -/
theorem C3_witness :
    VersionedDict.rollback (initVD none)
      = (Except.error (PyErr.valueError "Empty history"), initVD none) :=
  (C3_raises_iff_history_empty (initVD none)).2 rfl

/-- C9 counterexample: a tuple containing a list is mutable in the spec's
sense (hashing it would fail) and is not a dict, yet the write is accepted —
the source's `isinstance(value, Hashable)` test is type-level and tuples
always pass it. -/
theorem C9_counterexample :
    (VersionedDict.setitem (initVD none) "k" (PyVal.tup [PyElem.listE []])).1 = none
      ∧ specMutableValue (PyVal.tup [PyElem.listE []]) = true
      ∧ isinstanceDict (PyVal.tup [PyElem.listE []]) = false := by
  decide

/-- C9 (amended): the write raises the mutable-value error exactly when the
value is neither a dict nor type-level hashable (i.e. it is a list); the
raise happens before the lock is taken and leaves the store unchanged. -/
theorem C9_mutable_check (s : VersionedDict) (k : String) (v : PyVal) :
    ((VersionedDict.setitem s k v).1
        = some (PyErr.valueError "mutable value not allowed in VersionedDict")
      ↔ isinstanceDict v = false ∧ isinstanceHashable v = false)
    ∧ ((VersionedDict.setitem s k v).1 ≠ none → (VersionedDict.setitem s k v).2 = s) := by
  unfold VersionedDict.setitem
  by_cases h : isinstanceDict v = false ∧ isinstanceHashable v = false
  · rw [if_pos h]
    exact ⟨⟨fun _ => h, fun _ => rfl⟩, fun _ => rfl⟩
  · rw [if_neg h]
    dsimp only
    exact ⟨⟨fun hh => absurd hh (by simp), fun hh => absurd hh h⟩, fun hh => absurd rfl hh⟩

/-- C9 witness: a plain list is rejected. -/
theorem C9_mutable_check_witness :
    (VersionedDict.setitem (initVD none) "k" (PyVal.list [])).1
      = some (PyErr.valueError "mutable value not allowed in VersionedDict") :=
  (C9_mutable_check (initVD none) "k" (PyVal.list [])).1.mpr (by decide)

/-- C10 counterexample: with `max_history = 0` the deque discards the
appended diff, so nothing is consumed and the immediately following
`rollback()` raises instead of succeeding. -/
theorem C10_counterexample :
    (VersionedDict.commit (initVD (some 0))).history = []
      ∧ (VersionedDict.rollback (VersionedDict.commit (initVD (some 0)))).1
          = Except.error (PyErr.valueError "Empty history") := by
  decide

/-- C10 (amended): unless `max_history = 0`, `commit()` always appends the
open diff even when empty (it becomes the last history entry and the history
grows by one up to the bound), and when the open diff is empty an immediately
following `rollback()` succeeds, returns the empty tuple and leaves the data
unchanged. -/
theorem C10_empty_commit_rollback (s : VersionedDict) (h0 : s.maxlen ≠ some 0)
    (h1 : s.changes = []) :
    (VersionedDict.commit s).history.getLast? = some []
    ∧ (VersionedDict.commit s).history.length
        = (match s.maxlen with
            | none => s.history.length + 1
            | some m => min (s.history.length + 1) m)
    ∧ VersionedDict.rollback (VersionedDict.commit s)
        = (Except.ok [], { VersionedDict.commit s with
            history := (VersionedDict.commit s).history.dropLast })
    ∧ (VersionedDict.rollback (VersionedDict.commit s)).2.data = s.data := by
  have hl : (VersionedDict.commit s).history.getLast? = some [] := by
    show (dequeAppend s.maxlen s.history s.changes).getLast? = some []
    rw [h1]
    exact dequeAppend_getLast? s.maxlen s.history [] h0
  have hroll : VersionedDict.rollback (VersionedDict.commit s)
      = (Except.ok [], { VersionedDict.commit s with
          history := (VersionedDict.commit s).history.dropLast }) := by
    unfold VersionedDict.rollback
    rw [hl]
    rfl
  refine ⟨hl, ?_, hroll, by rw [hroll]; rfl⟩

  show (dequeAppend s.maxlen s.history s.changes).length = _
  cases hml : s.maxlen with
  | none => simp [dequeAppend]
  | some m =>
    simp only [dequeAppend, List.length_drop, List.length_append, List.length_singleton]
    omega

/-- C10 witness: empty commit then rollback at a concrete store. -/
theorem C10_witness :
    (VersionedDict.rollback (VersionedDict.commit
        (runOps (some 3) [VOp.setV "a" (PyVal.int 1), VOp.commitV]))).2.data
      = (runOps (some 3) [VOp.setV "a" (PyVal.int 1), VOp.commitV]).data :=
  (C10_empty_commit_rollback _ (by decide) (by decide)).2.2.2

/-! ### Worker-loop lemmas -/

theorem mirrorStep_frozen_spec (msgs : List (List String)) (rem : List (String × PyVal))
    (st : MirrorState) :
    (mirrorStep true msgs rem st).2 = []
    ∧ (mirrorStep true msgs rem st).1.data = st.data
    ∧ (mirrorStep true msgs rem st).1.updatedInitial = st.updatedInitial
    ∧ ∀ a, a ∈ (mirrorStep true msgs rem st).1.frozenUpdates
        ↔ (a ∈ st.frozenUpdates ∨ a ∈ msgs.flatten) := by
  unfold mirrorStep
  have e1 : (true = false ∧ st.frozenUpdates ≠ []) ↔ False := by simp
  have e2 : (st.updatedInitial = false ∧ true = false) ↔ False := by simp
  simp only [e1, e2, if_false]
  by_cases hm : msgs = []
  · subst hm
    simp only [if_pos rfl, List.flatten_nil]
    refine ⟨rfl, rfl, rfl, fun a => ?_⟩
    simp
  · rw [if_neg hm]
    by_cases hch : dedup msgs.flatten = []
    · have hfl : msgs.flatten = [] := by
        by_contra hne
        obtain ⟨a, ha⟩ := List.exists_mem_of_ne_nil _ hne
        have := (mem_dedup msgs.flatten a).mpr ha
        simp [hch] at this
      rw [if_pos hch]
      refine ⟨rfl, rfl, rfl, fun a => ?_⟩
      simp [hfl]
    · rw [if_neg hch, if_pos trivial]
      refine ⟨rfl, rfl, rfl, fun a => ?_⟩
      show a ∈ dedup (st.frozenUpdates ++ dedup msgs.flatten) ↔ _
      rw [mem_dedup, List.mem_append, mem_dedup]

theorem runMirror_frozenPhase (msgss : List (List (List String))) :
    ∀ st : MirrorState,
      (runMirror st (frozenPhase msgss)).2 = []
      ∧ (runMirror st (frozenPhase msgss)).1.data = st.data
      ∧ (runMirror st (frozenPhase msgss)).1.updatedInitial = st.updatedInitial
      ∧ ∀ a, a ∈ (runMirror st (frozenPhase msgss)).1.frozenUpdates
          ↔ (a ∈ st.frozenUpdates ∨ a ∈ msgss.flatten.flatten) := by
  induction msgss with
  | nil =>
    intro st
    refine ⟨rfl, rfl, rfl, fun a => ?_⟩
    simp [frozenPhase, runMirror]
  | cons m tl ih =>
    intro st
    obtain ⟨h1, h2, h3, h4⟩ := mirrorStep_frozen_spec m [] st
    obtain ⟨g1, g2, g3, g4⟩ := ih (mirrorStep true m [] st).1
    have hrun : runMirror st (frozenPhase (m :: tl))
        = ((runMirror (mirrorStep true m [] st).1 (frozenPhase tl)).1,
           (mirrorStep true m [] st).2
             ++ (runMirror (mirrorStep true m [] st).1 (frozenPhase tl)).2) := by
      rw [frozenPhase, List.map_cons, runMirror]
      rfl
    rw [hrun]
    refine ⟨by rw [h1, g1]; rfl, by rw [g2, h2], by rw [g3, h3], fun a => ?_⟩
    rw [g4 a, h4 a, List.flatten_cons, List.flatten_append, List.mem_append]
    tauto

theorem mirrorStep_thaw (rem : List (String × PyVal)) (st : MirrorState)
    (hui : st.updatedInitial = true) (hfu : st.frozenUpdates ≠ []) :
    (mirrorStep false [] rem st).2
        = [⟨(mirrorStep false [] rem st).1.data, dedup (st.frozenUpdates ++ [])⟩]
      ∧ (∀ a, a ∈ dedup (st.frozenUpdates ++ []) ↔ a ∈ st.frozenUpdates)
      ∧ (mirrorStep false [] rem st).1.frozenUpdates = []
      ∧ (mirrorStep false [] rem st).1.updatedInitial = true := by
  have hmem : ∀ a, a ∈ dedup (st.frozenUpdates ++ []) ↔ a ∈ st.frozenUpdates := by
    intro a
    rw [mem_dedup]
    simp
  have hne : dedup (st.frozenUpdates ++ []) ≠ [] := by
    obtain ⟨a, ha⟩ := List.exists_mem_of_ne_nil _ hfu
    intro hnil
    have h2 := (hmem a).mpr ha
    rw [hnil] at h2
    simp at h2
  refine ⟨?_, hmem, ?_, ?_⟩ <;>
  · unfold mirrorStep
    simp only [List.append_nil] at hne
    simp [hui, hfu, hne]

/-- C5: while a mirror is frozen the worker produces no observer invocation —
every batch of field names arriving in the frozen interval is moved entirely
into the pending buffer and the local map is untouched — and the first
unfrozen cycle produces exactly one observer invocation whose changed-field
set is exactly the union of the names from the frozen interval, clearing the
buffer (no interleaved partial invocation). -/
theorem C5_freeze_thaw (st : MirrorState) (msgss : List (List (List String)))
    (rem : List (String × PyVal))
    (hui : st.updatedInitial = true) (hfu : st.frozenUpdates = [])
    (hne : msgss.flatten.flatten ≠ []) :
    (runMirror st (frozenPhase msgss)).2 = []
    ∧ (runMirror st (frozenPhase msgss)).1.data = st.data
    ∧ ∃ ev : MirrorEv,
        (mirrorStep false [] rem (runMirror st (frozenPhase msgss)).1).2 = [ev]
        ∧ (∀ a, a ∈ ev.changed ↔ a ∈ msgss.flatten.flatten)
        ∧ (mirrorStep false [] rem (runMirror st (frozenPhase msgss)).1).1.frozenUpdates = [] := by
  obtain ⟨h1, h2, h3, h4⟩ := runMirror_frozenPhase msgss st
  have hui1 : (runMirror st (frozenPhase msgss)).1.updatedInitial = true := by
    rw [h3, hui]
  have hfu1mem : ∀ a, a ∈ (runMirror st (frozenPhase msgss)).1.frozenUpdates
      ↔ a ∈ msgss.flatten.flatten := by
    intro a
    rw [h4 a, hfu]
    simp
  have hfu1ne : (runMirror st (frozenPhase msgss)).1.frozenUpdates ≠ [] := by
    obtain ⟨a, ha⟩ := List.exists_mem_of_ne_nil _ hne
    intro hnil
    have h5 := (hfu1mem a).mpr ha
    rw [hnil] at h5
    exact absurd h5 (List.not_mem_nil a)
  obtain ⟨t1, t2, t3, t4⟩ :=
    mirrorStep_thaw rem (runMirror st (frozenPhase msgss)).1 hui1 hfu1ne
  refine ⟨h1, h2,
    ⟨⟨(mirrorStep false [] rem (runMirror st (frozenPhase msgss)).1).1.data,
      dedup ((runMirror st (frozenPhase msgss)).1.frozenUpdates ++ [])⟩, t1, ?_, t3⟩⟩
  intro a
  show a ∈ dedup ((runMirror st (frozenPhase msgss)).1.frozenUpdates ++ []) ↔ _
  rw [t2 a, hfu1mem a]

/-- C5 witness: a concrete frozen interval with two delta batches. -/
theorem C5_freeze_thaw_witness :
    (runMirror ⟨[], true, []⟩ (frozenPhase [[["x"]], [["y"], ["x"]]])).2 = [] :=
  (C5_freeze_thaw ⟨[], true, []⟩ [[["x"]], [["y"], ["x"]]]
    [("x", PyVal.int 1), ("y", PyVal.int 2)] rfl rfl (by decide)).1

/-- C6: evaluating the write path at the failing input.  A full-hash replace
of `{"old": 1}` by `{"new": 2}` deletes `"old"` remotely but publishes only
`["new"]`, so a synchronized unfrozen mirror that applies the published delta
keeps the stale entry `"old"` forever. -/
theorem C6_replace_leaves_stale_field :
    (hashWriteAll [("old", PyVal.int 1)] [("new", PyVal.int 2)]).2 = ["new"]
    ∧ dGet? (hashWriteAll [("old", PyVal.int 1)] [("new", PyVal.int 2)]).1 "old" = none
    ∧ dGet? (mirrorStep false
        [(hashWriteAll [("old", PyVal.int 1)] [("new", PyVal.int 2)]).2]
        (hashWriteAll [("old", PyVal.int 1)] [("new", PyVal.int 2)]).1
        { data := [("old", PyVal.int 1)], updatedInitial := true,
          frozenUpdates := [] }).1.data "old"
      = some (PyVal.int 1) := by
  decide

/-- C7: `subscribe_hash` raises when the key is already tracked (leaving the
connector untouched), and otherwise opens the delta subscription first, then
reads the full snapshot into the local map, then starts the worker.  A delta
published between the subscription and the snapshot read is re-read against
the current remote hash by the worker's first cycle, so the mirror converges
to the written state whether or not the snapshot already contained the
write — no update is dropped. -/
theorem C7_subscribe_order_no_lost_update (st : RCState) (key : String) (sf : Bool)
    (remote : List (String × PyVal)) :
    (dContains st.hash_frozen key = true →
      subscribeHash st key sf remote
        = (some (PyErr.valueError ("Already subscribed to redis hash " ++ key)), st, []))
    ∧ (dContains st.hash_frozen key = false →
        (subscribeHash st key sf remote).2.2
            = [RAction.pubsubSub ("hash_updates:" ++ key), RAction.hgetallRead key,
               RAction.threadStart ("redis_hash_subscriber_" ++ key)]
          ∧ dGet? (subscribeHash st key sf remote).2.1.hash_data key = some remote
          ∧ (subscribeHash st key sf remote).1 = none)
    ∧ (∀ (remote0 : List (String × PyVal)) (f : String) (v : PyVal)
          (snap : List (String × PyVal)),
        (snap = remote0 ∨ snap = dInsert remote0 f v) →
        ∀ k, dGet? (mirrorStep false [[f]] (dInsert remote0 f v)
            { data := snap, updatedInitial := false, frozenUpdates := [] }).1.data k
          = dGet? (dInsert remote0 f v) k) := by
  refine ⟨?_, ?_, ?_⟩
  · intro h
    unfold subscribeHash
    rw [if_pos h]
  · intro h
    unfold subscribeHash
    rw [h]
    simp only [Bool.false_eq_true, if_false]
    exact ⟨trivial, by rw [dGet?_insert_self], trivial⟩
  · intro remote0 f v snap hsnap k
    have hstep : (mirrorStep false [[f]] (dInsert remote0 f v)
        { data := snap, updatedInitial := false, frozenUpdates := [] }).1.data
        = dInsert snap f v := by
      unfold mirrorStep
      simp [dedup, dGet?_insert_self]
    rw [hstep]
    rcases hsnap with rfl | rfl
    · rfl
    · by_cases hk : k = f
      · subst hk
        rw [dGet?_insert_self, dGet?_insert_self]
      · rw [dGet?_insert_ne _ _ _ _ hk, dGet?_insert_ne _ _ _ _ hk]

/-- C7 witness: a fresh connector, with the race write landing after the
snapshot read. -/
theorem C7_subscribe_witness :
    (subscribeHash ⟨[], []⟩ "pool:42" false []).2.2
      = [RAction.pubsubSub "hash_updates:pool:42", RAction.hgetallRead "pool:42",
         RAction.threadStart "redis_hash_subscriber_pool:42"]
    ∧ dGet? (mirrorStep false [["reserve0"]] (dInsert [] "reserve0" (PyVal.int 100))
        { data := [], updatedInitial := false, frozenUpdates := [] }).1.data "reserve0"
      = dGet? (dInsert [] "reserve0" (PyVal.int 100)) "reserve0" :=
  ⟨((C7_subscribe_order_no_lost_update ⟨[], []⟩ "pool:42" false []).2.1 rfl).1,
   (C7_subscribe_order_no_lost_update ⟨[], []⟩ "pool:42" false []).2.2
     [] "reserve0" (PyVal.int 100) [] (Or.inl rfl) "reserve0"⟩

/-- C8 counterexample: the hash key is cached (the mirror holds `{"x": 1}`)
but the requested field `"y"` is not; the remote hash does hold `"y"`, yet
the single-field read raises `KeyError` instead of falling back to a remote
read. -/
theorem C8_counterexample :
    (hashGetField [("h", [("x", PyVal.int 1)])] [("h", false)]
        [("y", PyVal.int 7)] "h" "y").1 = Except.error PyErr.keyError
    ∧ dGet? [("y", PyVal.int 7)] "y" = some (PyVal.int 7) := by
  decide

/-- C8 (amended): the fallback to a direct remote read happens exactly when
the hash key itself is absent from the local cache (where a nil remote reply
still fails in decoding); when the key is cached but the field is missing,
the single-field read raises `KeyError` with no fallback; the diagnostic is
printed exactly when the key is subscribed but its snapshot not yet loaded. -/
theorem C8_read_path (hash_data : List (String × List (String × PyVal)))
    (hash_frozen : List (String × Bool)) (remote : List (String × PyVal)) (key f : String) :
    (dGet? hash_data key = none →
      (hashGetField hash_data hash_frozen remote key f).1 = hgetDecode remote f)
    ∧ (∀ cache, dGet? hash_data key = some cache → dGet? cache f = none →
        (hashGetField hash_data hash_frozen remote key f).1 = Except.error PyErr.keyError)
    ∧ ((hashGetField hash_data hash_frozen remote key f).2 = true
        ↔ (dContains hash_frozen key = true ∧ dContains hash_data key = false)) := by
  refine ⟨?_, ?_, ?_⟩
  · intro h
    unfold hashGetField
    rw [h]
  · intro cache hc hf
    unfold hashGetField
    rw [hc]
    dsimp only
    rw [hf]
  · unfold hashGetField
    cases hget : dGet? hash_data key <;> dsimp only <;> simp [decide_eq_true_iff]

/-- C8 witness: an unsubscribed, uncached key falls back to the remote read. -/
theorem C8_read_path_witness :
    (hashGetField [] [] [("y", PyVal.int 7)] "h" "y").1
      = hgetDecode [("y", PyVal.int 7)] "y" :=
  (C8_read_path [] [] [("y", PyVal.int 7)] "h" "y").1 rfl
